import Mathlib

/-!
Shallow embedding of llvm_mode/afl-llvm-pass.so.cc (rohanpadhye/afl).

The pass has two ModulePasses:

* AFLCoverage::runOnModule — parses AFL_INST_RATIO, and for each basic
  block decides (AFL_R(100) >= inst_ratio => skip) whether to emit the
  edge-update instruction sequence with a fresh random block label
  cur_loc = AFL_R(MAP_SIZE).  The emitted sequence is:
    prev  <- load __afl_prev_loc            (thread-local)
    map   <- load __afl_area_ptr            (shared map pointer)
    idx   := prev xor cur_loc
    byte  <- load map[idx]
    store map[idx] := byte + 1              (i8, wraps mod 256)
    store __afl_prev_loc := cur_loc >> 1

* ExecutionIndexing::runOnModule — walks every instruction of every
  block; around each call instruction it inserts a call to
  __afl_ei_push_call(call_site_id, callee_name) immediately before and a
  call to __afl_ei_pop_return() immediately after; calls to fread are
  rerouted to __afl_ei_fread with the same arguments, all uses of the
  original return value are redirected to the wrapper call, and the
  original call is erased.

The edge-update sequence is modelled as a state transformer on CovState
(shared map memory plus the per-thread previous-location registers);
dereferencing a null map pointer is modelled as the faulting result
Option.none.  The ExecutionIndexing rewrite is modelled as a
transformation on lists of instructions.
-/

namespace AflLlvmPass

/-- Modelled from the spec: MAP_SIZE is the power-of-two size of the
coverage map, a build-time constant shared between instrumentor and
runtime (defined in config.h, which is not under src/); AFL uses 2^16. -/
def MAP_SIZE : Nat := 2 ^ 16

/-- Modelled from the spec: the RandomLabelSource.  AFL_R(x) is defined in
config.h (not under src/) as random() % x; the argument r stands for the
raw draw of the underlying PRNG, so every produced value lies in
[0, limit). -/
def AFL_R (limit r : Nat) : Nat := r % limit

/-! ## AFL_INST_RATIO parsing (afl-llvm-pass.so.cc lines 93-102) -/

/-- Numeric value of a list of decimal digit characters (most significant
first), as accumulated by a decimal scanner. -/
def digitsVal : List Char → Nat → Nat
  | [], acc => acc
  | c :: cs, acc => digitsVal cs (acc * 10 + (c.toNat - 48))

/-- Modelled from libc (not part of this repository): sscanf(s, "%u", &v).
Skips leading whitespace, accepts one optional sign, then the longest run
of decimal digits; succeeds iff that run is non-empty, converting like
strtoul and storing into a 32-bit unsigned int (a negative sign negates
modulo 2^32).  Overflow clamping inside strtoul is not modelled; the
claims settled here never exercise it. -/
def sscanf_u (s : List Char) : Option Nat :=
  let s1 := s.dropWhile (fun c => c.isWhitespace)
  let signed : Bool × List Char :=
    match s1 with
    | '-' :: t => (true, t)
    | '+' :: t => (false, t)
    | _ => (false, s1)
  let ds := signed.2.takeWhile (fun c => c.isDigit)
  if ds.isEmpty then none
  else
    let v := digitsVal ds 0
    some (if signed.1 then (2 ^ 32 - v % 2 ^ 32) % 2 ^ 32 else v % 2 ^ 32)

/-- The fatal diagnostic of afl-llvm-pass.so.cc line 100. -/
def badRatioMsg : String := "Bad value of AFL_INST_RATIO (must be between 1 and 100)"

/-- Lines 93-102: inst_ratio defaults to 100; when the AFL_INST_RATIO
environment variable is present, FATAL unless sscanf %u succeeds and the
parsed value is neither 0 nor above 100. -/
def parseRatioConfig (env : Option (List Char)) : Except String Nat :=
  match env with
  | none => Except.ok 100
  | some s =>
    match sscanf_u s with
    | none => Except.error badRatioMsg
    | some v =>
      if v = 0 ∨ 100 < v then Except.error badRatioMsg else Except.ok v

/-- Follows the spec's words, for comparison with parseRatioConfig: the
configured text is exactly the decimal representation of an integer in
[1,100] (digits only, no other characters). -/
def textIsIntegerInRange (s : List Char) : Bool :=
  !s.isEmpty && s.all (fun c => c.isDigit)
    && decide (1 ≤ digitsVal s 0) && decide (digitsVal s 0 ≤ 100)

/-! ## Per-block instrumentation decision (lines 125 and 129) -/

/-- Line 125: a site is instrumented iff the draw AFL_R(100), a uniform
value in [0,100), is not >= inst_ratio, i.e. iff it is < inst_ratio. -/
def shouldInstrument (inst_ratio r : Nat) : Bool :=
  decide (AFL_R 100 r < inst_ratio)

/-- Lines 125-129 for one basic block: if AFL_R(100) >= inst_ratio the
block is skipped (none); otherwise the block label cur_loc = AFL_R(MAP_SIZE)
for the emitted edge-update sequence is returned.  r1 and r2 are the two
raw PRNG draws consumed at this site. -/
def instrumentBlockStep (inst_ratio r1 r2 : Nat) : Option Nat :=
  if inst_ratio ≤ AFL_R 100 r1 then none
  else some (AFL_R MAP_SIZE r2)

/-! ## The emitted edge-update sequence (lines 135-158) -/

/-- Line 144: the map index of the emitted GEP, CreateXor(prev, cur_loc). -/
def edgeIndex (prevLoc curLoc : Nat) : Nat := Nat.xor prevLoc curLoc

/-- Line 157: the value stored back to __afl_prev_loc, cur_loc >> 1. -/
def nextPrevLoc (curLoc : Nat) : Nat := curLoc >>> 1

/-- Runtime state touched by the emitted sequence: the shared coverage
map (area = none models a null __afl_area_ptr; each cell holds one i8
counter) and the thread-local __afl_prev_loc registers, one per thread
id. -/
structure CovState where
  area : Option (Nat → Nat)
  prevLoc : Nat → Nat

/-- One dynamic execution, by thread tid, of the sequence emitted at a
block with label curLoc (lines 135-158): load prev_loc, load the map
pointer, increment the byte at edgeIndex prev cur (i8 add, hence mod 256),
and store nextPrevLoc curLoc to this thread's register.  The emitted code
contains no null test: loading or storing through a null map pointer is a
fault, modelled as none. -/
def edgeUpdate (tid curLoc : Nat) (s : CovState) : Option CovState :=
  match s.area with
  | none => none
  | some m =>
    let idx := edgeIndex (s.prevLoc tid) curLoc
    some { area := some (fun j => if j = idx then (m idx + 1) % 256 else m j),
           prevLoc := fun t => if t = tid then nextPrevLoc curLoc else s.prevLoc t }

/-! ## ExecutionIndexing::runOnModule (lines 207-279) -/

/-- Name of the buffered-read primitive that the pass reroutes. -/
def freadName : String := "fread"

/-- Instructions of a basic block, at the granularity the rewrite of
lines 229-274 distinguishes.  call models a CallInst of the input module
(callee = none for an indirect or unnamed callee, args the operand
values); callPush, callPop and callFread are the instructions the pass
itself emits (calls to __afl_ei_push_call, __afl_ei_pop_return and
__afl_ei_fread); other models any non-call instruction. -/
inductive Instr where
  | call : Option String → List Nat → Instr
  | callPush : Nat → Option String → Instr
  | callPop : Instr
  | callFread : List Nat → Instr
  | other : Nat → Instr
deriving DecidableEq, Repr

/-- True for the instructions an uninstrumented input block may contain
(the pass runs once, on code that has no __afl_ei_* calls yet). -/
def origInstr : Instr → Bool
  | Instr.call _ _ => true
  | Instr.other _ => true
  | _ => false

/-- The instruction rewrite of lines 229-274 on one basic block.
hasFread models M.getFunction("fread") != NULL; rs k is the raw PRNG draw
behind the k-th AFL_R(MAP_SIZE) call-site id.  For each CallInst: insert
callPush (AFL_R MAP_SIZE (rs k)) callee immediately before it; if the
callee is the module's fread, emit callFread with the same arguments in
its place and erase the original call; insert callPop immediately after;
then continue after the inserted callPop (inserted instructions are never
revisited).  Returns the next PRNG position and the rewritten block. -/
def eiTransform (hasFread : Bool) (rs : Nat → Nat) : Nat → List Instr → Nat × List Instr
  | k, [] => (k, [])
  | k, Instr.call callee args :: rest =>
    ((eiTransform hasFread rs (k + 1) rest).1,
      Instr.callPush (AFL_R MAP_SIZE (rs k)) callee
        :: (if hasFread && callee == some freadName then Instr.callFread args
            else Instr.call callee args)
        :: Instr.callPop
        :: (eiTransform hasFread rs (k + 1) rest).2)
  | k, i :: rest =>
    ((eiTransform hasFread rs k rest).1, i :: (eiTransform hasFread rs k rest).2)

/-- Modelled from the spec: the per-thread CallContextStack runtime that
__afl_ei_push_call and __afl_ei_pop_return maintain (their definitions are
not under src/).  Straight-line execution of a block over a stack of
(call_site_id, callee_name) frames: callPush pushes its frame, callPop
pops one frame, every other instruction leaves the stack alone. -/
def runStack : List Instr → List (Nat × Option String) → List (Nat × Option String)
  | [], st => st
  | Instr.callPush id name :: rest, st => runStack rest ((id, name) :: st)
  | Instr.callPop :: rest, st => runStack rest st.tail
  | _ :: rest, st => runStack rest st

/-- Number of instructions that perform the buffered read: original calls
to fread plus calls to the __afl_ei_fread wrapper. -/
def countReads : List Instr → Nat
  | [] => 0
  | Instr.call c _ :: rest =>
    (if c == some freadName then 1 else 0) + countReads rest
  | Instr.callFread _ :: rest => 1 + countReads rest
  | _ :: rest => countReads rest

/-! ## Theorems -/

/-- C1, amended: the emitted edge-update sequence contains no null test;
when the global coverage-map pointer (__afl_area_ptr) is null, every
execution of the sequence dereferences the null pointer and faults
(modelled as none), rather than completing as a no-op. -/
theorem edgeUpdate_null_map_faults (tid curLoc : Nat) (pl : Nat → Nat) :
    edgeUpdate tid curLoc { area := none, prevLoc := pl } = none := rfl

/-- C1, counterexample to the claim as stated: with a null map pointer,
executing the edge-update for label 7 on thread 0 is not a safe no-op —
the operation faults (none); in particular it does not return the state
unchanged. -/
theorem edgeUpdate_null_map_not_noop :
    edgeUpdate 0 7 { area := none, prevLoc := fun _ => 0 } = none ∧
      edgeUpdate 0 7 { area := none, prevLoc := fun _ => 0 } ≠
        some { area := none, prevLoc := fun _ => 0 } := by
  exact ⟨rfl, by simp [edgeUpdate]⟩

/-- C2: with a map attached, one execution of the emitted sequence by
thread tid at a block with label curLoc increments the map cell at
edgeIndex prevLoc curLoc = prevLoc xor curLoc by exactly 1 modulo 256 and
stores nextPrevLoc curLoc = curLoc >>> 1 into the thread's
previous-location register. -/
theorem edgeUpdate_spec (m pl : Nat → Nat) (tid curLoc : Nat) :
    ∃ m' : Nat → Nat,
      edgeUpdate tid curLoc { area := some m, prevLoc := pl } =
        some { area := some m',
               prevLoc := fun t => if t = tid then nextPrevLoc curLoc else pl t } ∧
      m' (edgeIndex (pl tid) curLoc) = (m (edgeIndex (pl tid) curLoc) + 1) % 256 ∧
      edgeIndex (pl tid) curLoc = Nat.xor (pl tid) curLoc ∧
      nextPrevLoc curLoc = curLoc >>> 1 := by
  refine ⟨_, rfl, ?_, rfl, rfl⟩
  simp

/-- C10: one execution of the emitted edge-update sequence leaves every
map cell other than the one at edgeIndex (pl tid) curLoc unchanged, and
leaves the previous-location register of every thread other than the
executing one unchanged. -/
theorem edgeUpdate_frame (m pl : Nat → Nat) (tid curLoc : Nat) :
    ∃ (m' : Nat → Nat) (pl' : Nat → Nat),
      edgeUpdate tid curLoc { area := some m, prevLoc := pl } =
        some { area := some m', prevLoc := pl' } ∧
      (∀ j, j ≠ edgeIndex (pl tid) curLoc → m' j = m j) ∧
      (∀ t, t ≠ tid → pl' t = pl t) := by
  refine ⟨_, _, rfl, ?_, ?_⟩
  · intro j hj
    simp [hj]
  · intro t ht
    simp [ht]

/-- C10, witness: at the concrete state with all-zero map and all
registers 3, the update by thread 0 at label 5 (touched cell 3 xor 5 = 6)
leaves cell 2 at 0 and thread 1's register at 3. -/
theorem edgeUpdate_frame_witness :
    ∃ (m' : Nat → Nat) (pl' : Nat → Nat),
      edgeUpdate 0 5 { area := some fun _ => 0, prevLoc := fun _ => 3 } =
        some { area := some m', prevLoc := pl' } ∧
      m' 2 = 0 ∧ pl' 1 = 3 := by
  obtain ⟨m', pl', he, hm, hp⟩ := edgeUpdate_frame (fun _ => 0) (fun _ => 3) 0 5
  exact ⟨m', pl', he, hm 2 (by decide), hp 1 (by decide)⟩

/-- C5: the per-site decision of line 125 installs instrumentation iff
the draw AFL_R(100) — always a value in [0,100) — is strictly below
inst_ratio; with no AFL_INST_RATIO in the environment the ratio defaults
to 100, and at ratio 100 every site is instrumented (the block label
AFL_R(MAP_SIZE) is always emitted). -/
theorem shouldInstrument_spec :
    (∀ ratio r : Nat, shouldInstrument ratio r = decide (AFL_R 100 r < ratio)) ∧
    (∀ r : Nat, AFL_R 100 r < 100) ∧
    parseRatioConfig none = Except.ok 100 ∧
    (∀ r1 r2 : Nat, instrumentBlockStep 100 r1 r2 = some (AFL_R MAP_SIZE r2)) ∧
    (∀ ratio r1 r2 : Nat,
      (instrumentBlockStep ratio r1 r2).isSome = shouldInstrument ratio r1) := by
  refine ⟨fun _ _ => rfl, fun r => Nat.mod_lt _ (by decide), rfl, ?_, ?_⟩
  · intro r1 r2
    have h : AFL_R 100 r1 < 100 := Nat.mod_lt _ (by decide)
    simp [instrumentBlockStep, Nat.not_le.mpr h]
  · intro ratio r1 r2
    by_cases h : ratio ≤ AFL_R 100 r1
    · simp [instrumentBlockStep, shouldInstrument, h, Nat.not_lt.mpr h]
    · simp [instrumentBlockStep, shouldInstrument, h, Nat.lt_of_not_le h]

/-- C9: every coverage-map access of the emitted code is in bounds:
block labels and call-site ids AFL_R(MAP_SIZE) lie in [0, MAP_SIZE); the
value nextPrevLoc written back to the register stays in [0, MAP_SIZE);
and for any register value and label in [0, MAP_SIZE) the computed map
index edgeIndex lies in [0, MAP_SIZE) because MAP_SIZE is a power of
two. -/
theorem mapAccess_in_bounds :
    (∀ r : Nat, AFL_R MAP_SIZE r < MAP_SIZE) ∧
    (∀ c : Nat, c < MAP_SIZE → nextPrevLoc c < MAP_SIZE) ∧
    (∀ p c : Nat, p < MAP_SIZE → c < MAP_SIZE → edgeIndex p c < MAP_SIZE) := by
  refine ⟨fun r => Nat.mod_lt _ (by decide), fun c hc => ?_, fun p c hp hc => ?_⟩
  · show c >>> 1 < MAP_SIZE
    rw [Nat.shiftRight_one]
    exact lt_of_le_of_lt (Nat.div_le_self c 2) hc
  · simp only [MAP_SIZE] at hp hc ⊢
    exact Nat.xor_lt_two_pow hp hc

/-- C9, witness: at register value 3 and label 5 the bounds hold, and so
does the bound on the stored-back register value for label 5. -/
theorem mapAccess_in_bounds_witness :
    nextPrevLoc 5 < MAP_SIZE ∧ edgeIndex 3 5 < MAP_SIZE := by
  exact ⟨mapAccess_in_bounds.2.1 5 (by decide),
         mapAccess_in_bounds.2.2 3 5 (by decide) (by decide)⟩

/-- C3: around every call instruction the pass inserts exactly one
callPush — carrying a call-site id AFL_R(MAP_SIZE) in [0, MAP_SIZE) and
the callee name or the null sentinel — immediately before the call and
exactly one callPop immediately after it; consequently running any
rewritten uninstrumented block (every call returning normally) leaves the
per-thread context stack exactly as it started. -/
theorem eiTransform_push_pop_balance :
    (∀ (hasFread : Bool) (rs : Nat → Nat) (k : Nat) (callee : Option String)
        (args : List Nat) (rest : List Instr),
      eiTransform hasFread rs k (Instr.call callee args :: rest) =
        ((eiTransform hasFread rs (k + 1) rest).1,
          Instr.callPush (AFL_R MAP_SIZE (rs k)) callee
            :: (if hasFread && callee == some freadName then Instr.callFread args
                else Instr.call callee args)
            :: Instr.callPop
            :: (eiTransform hasFread rs (k + 1) rest).2)) ∧
    (∀ r : Nat, AFL_R MAP_SIZE r < MAP_SIZE) ∧
    (∀ (hasFread : Bool) (rs : Nat → Nat) (k : Nat) (l : List Instr)
        (st : List (Nat × Option String)),
      (∀ i ∈ l, origInstr i = true) →
      runStack (eiTransform hasFread rs k l).2 st = st) := by
  refine ⟨fun _ _ _ _ _ _ => rfl, fun r => Nat.mod_lt _ (by decide), ?_⟩
  intro hasFread rs k l
  induction l generalizing k with
  | nil => intro st _; rfl
  | cons i rest ih =>
    intro st h
    have hrest : ∀ i ∈ rest, origInstr i = true :=
      fun i hi => h i (List.mem_cons_of_mem _ hi)
    cases i with
    | call callee args =>
      by_cases hc : hasFread && callee == some freadName
      · simp only [eiTransform, hc, if_true, runStack, List.tail_cons]
        exact ih (k + 1) st hrest
      · simp only [eiTransform, hc, if_false, runStack, List.tail_cons]
        exact ih (k + 1) st hrest
    | other n =>
      simp only [eiTransform, runStack]
      exact ih k st hrest
    | callPush id name =>
      exact absurd (h _ (List.mem_cons_self _ _)) (by simp [origInstr])
    | callPop =>
      exact absurd (h _ (List.mem_cons_self _ _)) (by simp [origInstr])
    | callFread args =>
      exact absurd (h _ (List.mem_cons_self _ _)) (by simp [origInstr])

/-- C3, witness: rewriting the concrete block [call g [1], other 0] and
running the result on the stack [(5, none)] returns that same stack. -/
theorem eiTransform_push_pop_balance_witness :
    runStack
      (eiTransform true (fun _ => 3) 0
        [Instr.call (some "g") [1], Instr.other 0]).2
      [(5, none)] = [(5, none)] := by
  exact eiTransform_push_pop_balance.2.2 true (fun _ => 3) 0
    [Instr.call (some "g") [1], Instr.other 0] [(5, none)] (by decide)

/-- C4: every call whose callee is the module's fread is rerouted: the
pass emits, in its place, a single call to the __afl_ei_fread wrapper
with identical arguments, bracketed by the same callPush/callPop pair as
any other call, and erases the original call; across any block the
number of read-performing calls (fread or wrapper) is preserved, so the
read is performed exactly once per original call. -/
theorem eiTransform_fread_reroute :
    (∀ (rs : Nat → Nat) (k : Nat) (args : List Nat) (rest : List Instr),
      eiTransform true rs k (Instr.call (some freadName) args :: rest) =
        ((eiTransform true rs (k + 1) rest).1,
          Instr.callPush (AFL_R MAP_SIZE (rs k)) (some freadName)
            :: Instr.callFread args
            :: Instr.callPop
            :: (eiTransform true rs (k + 1) rest).2)) ∧
    (∀ (hasFread : Bool) (rs : Nat → Nat) (k : Nat) (l : List Instr),
      countReads (eiTransform hasFread rs k l).2 = countReads l) := by
  constructor
  · intro rs k args rest
    simp [eiTransform]
  · intro hasFread rs k l
    induction l generalizing k with
    | nil => rfl
    | cons i rest ih =>
      cases i with
      | call callee args =>
        by_cases hc : callee == some freadName
        · cases hasFread with
          | false => simp only [eiTransform, Bool.false_and, if_false,
              countReads, hc, ih]
          | true => simp only [eiTransform, Bool.true_and, hc, if_true,
              countReads, ih]
        · simp only [eiTransform, hc, Bool.and_false, if_false, countReads, ih]
      | other n => simp only [eiTransform, countReads, ih]
      | callPush id name => simp only [eiTransform, countReads, ih]
      | callPop => simp only [eiTransform, countReads, ih]
      | callFread args => simp only [eiTransform, countReads, ih]

/-- C6, amended: a present AFL_INST_RATIO value is rejected as fatal iff
its leading numeric token fails to parse under sscanf %u (no digits) or
parses to 0 or to a value above 100; a value whose leading integer parses
into [1,100] is accepted with that integer, even when followed by
trailing non-numeric characters. -/
theorem parseRatioConfig_spec :
    (∀ (s : List Char) (v : Nat),
      parseRatioConfig (some s) = Except.ok v ↔
        sscanf_u s = some v ∧ 1 ≤ v ∧ v ≤ 100) ∧
    (∀ s : List Char,
      parseRatioConfig (some s) = Except.error badRatioMsg ↔
        sscanf_u s = none ∨ ∃ v, sscanf_u s = some v ∧ (v = 0 ∨ 100 < v)) := by
  constructor
  · intro s v
    cases hs : sscanf_u s with
    | none => simp [parseRatioConfig, hs]
    | some w =>
      by_cases hw : w = 0 ∨ 100 < w
      · simp only [parseRatioConfig, hs, hw, if_true, Option.some.injEq]
        constructor
        · intro hco
          exact absurd hco (by simp)
        · rintro ⟨rfl, h1, h2⟩
          rcases hw with h0 | h0 <;> omega
      · simp only [parseRatioConfig, hs, hw, if_false, Except.ok.injEq,
          Option.some.injEq]
        constructor
        · rintro rfl
          refine ⟨rfl, ?_, ?_⟩ <;> omega
        · rintro ⟨rfl, _, _⟩
          rfl
  · intro s
    cases hs : sscanf_u s with
    | none => simp [parseRatioConfig, hs]
    | some w =>
      by_cases hw : w = 0 ∨ 100 < w <;> simp [parseRatioConfig, hs, hw]

/-- C6, witness: the text 50 parses and is accepted with ratio 50. -/
theorem parseRatioConfig_spec_witness :
    parseRatioConfig (some ['5', '0']) = Except.ok 50 :=
  (parseRatioConfig_spec.1 ['5', '0'] 50).mpr ⟨by decide, by decide, by decide⟩

/-- C6, counterexample to the claim as stated: the configured text 50abc
is not an integer in [1,100], yet the configuration is accepted (with
ratio 50) rather than rejected as a fatal error, because sscanf %u stops
at the first non-digit. -/
theorem parseRatio_accepts_nonInteger_text :
    textIsIntegerInRange ['5', '0', 'a', 'b', 'c'] = false ∧
      parseRatioConfig (some ['5', '0', 'a', 'b', 'c']) = Except.ok 50 :=
  ⟨rfl, rfl⟩

/-- C7, amended: for every nonzero block label, after one execution of
the emitted sequence the register holds nextPrevLoc curLoc = curLoc >>> 1,
and an immediately following execution of the same block computes a
nonzero map index; for label 0 the second index is 0 (see the
counterexample), which the shift cannot prevent. -/
theorem selfLoop_shift_spec (m pl : Nat → Nat) (tid curLoc : Nat)
    (h : curLoc ≠ 0) :
    ∃ s', edgeUpdate tid curLoc { area := some m, prevLoc := pl } = some s' ∧
      s'.prevLoc tid = nextPrevLoc curLoc ∧
      edgeIndex (s'.prevLoc tid) curLoc ≠ 0 := by
  have key : edgeIndex (nextPrevLoc curLoc) curLoc ≠ 0 := by
    intro he
    have h1 : curLoc >>> 1 = curLoc := Nat.xor_eq_zero.mp he
    rw [Nat.shiftRight_one] at h1
    rcases Nat.div_eq_self.mp h1 with h2 | h2
    · exact h h2
    · exact absurd h2 (by decide)
  refine ⟨_, rfl, ?_, ?_⟩ <;> simp [key]

/-- C7, witness: at label 5 the post-update register holds 2 and the
self-loop index 2 xor 5 = 7 is nonzero. -/
theorem selfLoop_shift_spec_witness :
    ∃ s', edgeUpdate 0 5 { area := some fun _ => 0, prevLoc := fun _ => 0 } =
        some s' ∧
      s'.prevLoc 0 = nextPrevLoc 5 ∧ edgeIndex (s'.prevLoc 0) 5 ≠ 0 :=
  selfLoop_shift_spec (fun _ => 0) (fun _ => 0) 0 5 (by decide)

/-- C7, counterexample to the claim as stated: the label 0 lies in
[0, MAP_SIZE), and executing the block with label 0 twice consecutively
does compute map index 0 on the second execution (the register holds
0 >>> 1 = 0 and 0 xor 0 = 0). -/
theorem selfLoop_zero_label :
    (0 : Nat) < MAP_SIZE ∧
    ∃ s', edgeUpdate 0 0 { area := some fun _ => 0, prevLoc := fun _ => 0 } =
        some s' ∧
      s'.prevLoc 0 = nextPrevLoc 0 ∧ edgeIndex (s'.prevLoc 0) 0 = 0 :=
  ⟨by decide, _, rfl, rfl, rfl⟩

/-- Right shift by one distributes over xor (bitwise view). -/
theorem xor_shiftRight_one (a b : Nat) :
    (a ^^^ b) >>> 1 = a >>> 1 ^^^ b >>> 1 := by
  apply Nat.eq_of_testBit_eq
  intro i
  simp [Nat.testBit_shiftRight, Nat.testBit_xor]

/-- C8, amended: for any two instrumented blocks with labels a and b,
the map slot of edge A-to-B, edgeIndex (nextPrevLoc a) b, differs from
the slot of edge B-to-A, edgeIndex (nextPrevLoc b) a, whenever a and b
differ (when a = b the two slots coincide for every label, including
nonzero ones — see the counterexample). -/
theorem edgeSlot_asymmetric (a b : Nat) (hab : a ≠ b) :
    edgeIndex (nextPrevLoc a) b ≠ edgeIndex (nextPrevLoc b) a := by
  intro h
  apply hab
  have h' : a >>> 1 ^^^ b = b >>> 1 ^^^ a := h
  have key : (a ^^^ b) >>> 1 = a ^^^ b := by
    rw [xor_shiftRight_one]
    calc a >>> 1 ^^^ b >>> 1
        = (a >>> 1 ^^^ b) ^^^ (b ^^^ b >>> 1) := by
          rw [Nat.xor_assoc, Nat.xor_cancel_left]
      _ = (b >>> 1 ^^^ a) ^^^ (b ^^^ b >>> 1) := by rw [h']
      _ = a ^^^ b := by
          rw [Nat.xor_comm (b >>> 1) a, Nat.xor_comm b (b >>> 1),
            Nat.xor_assoc, Nat.xor_cancel_left]
  rw [Nat.shiftRight_one] at key
  rcases Nat.div_eq_self.mp key with h2 | h2
  · exact Nat.xor_eq_zero.mp h2
  · exact absurd h2 (by decide)

/-- C8, witness: for labels 4 and 5 the two directed slots differ
(2 xor 5 = 7 versus 2 xor 4 = 6). -/
theorem edgeSlot_asymmetric_witness :
    edgeIndex (nextPrevLoc 4) 5 ≠ edgeIndex (nextPrevLoc 5) 4 :=
  edgeSlot_asymmetric 4 5 (by decide)

/-- C8, counterexample to the claim as stated: two distinct blocks can
both draw the label 1 (nonzero and below MAP_SIZE), and then the slot
for edge A-to-B equals the slot for edge B-to-A even though
label(A) = 1 is nonzero. -/
theorem edgeSlot_symmetric_at_equal_labels :
    edgeIndex (nextPrevLoc 1) 1 = edgeIndex (nextPrevLoc 1) 1 ∧
      (1 : Nat) ≠ 0 ∧ (1 : Nat) < MAP_SIZE :=
  ⟨rfl, by decide, by decide⟩

end AflLlvmPass
